import Mathlib

/-!
# Rafiki payroll subsystem — verification development

Shallow embedding of the payroll batch-processing subsystem of the Rafiki
HR application, together with the UI decision logic of the React pages that
drive it (`AdminPayroll.jsx` `UploadTab`, `MessagesPage.jsx`
`PayrollApprovalBlock` / `MessageContent`, `MyDocumentsPage.jsx`).

Monetary amounts are embedded as rationals (`ℚ`); the tolerance used by the
reconciliation rule is `ε = 0.01` currency units.  The payroll REST backend
itself is not part of the checked sources — only its frontend callers are —
so the backend operations (`uploadBatch`, `parseBatch`, `requestApproval`,
`decideApproval`, `distribute`) are modelled from the specification, as
marked in their doc comments.  Every definition taken from a source file
names the file and symbol it embeds.
-/

namespace Rafiki

/-- Batch lifecycle states, from the spec §4.4 and the status strings used
throughout `AdminPayroll.jsx` and `MessagesPage.jsx`.  `replaced` is kept as
a separate flag on the batch (spec §3), not a status. -/
inductive BatchStatus where
  | uploaded
  | uploaded_needs_approval
  | parsed
  | distributed
  | rejected
  deriving DecidableEq, Repr

/-- One extracted payroll row (spec §3 `PayrollEntry`; field names follow the
JSON consumed by `AdminPayroll.jsx`: `employee_name`, `matched_user_id`,
`gross_salary`, `deductions`, `net_salary`). -/
structure PayrollEntry where
  employee_name : String
  matched_user_id : Option Nat
  gross_salary : ℚ
  deductions : ℚ
  net_salary : ℚ
  deriving DecidableEq, Repr

/-- Result of reconciling a batch (spec §4.3 `ReconciliationResult`). -/
structure ReconciliationResult where
  employee_count : Nat
  matched_count : Nat
  total_gross : ℚ
  total_deductions : ℚ
  total_net : ℚ
  unmatched_names : List String
  reconciled : Bool
  deriving DecidableEq, Repr

/-- Result of distributing a batch (spec §4.6 `DistributionResult`). -/
structure DistributionResult where
  payslip_count : Nat
  message : String
  deriving DecidableEq, Repr

/-- A payroll batch (spec §3 `PayrollBatch`).  `recon` and `distribution`
hold the results produced by `parse` / `distribute` once those have run
(the stored distribution result is what a repeated `distribute` returns). -/
structure PayrollBatch where
  batch_id : Nat
  org_id : Nat
  period_year : Nat
  period_month : Nat
  status : BatchStatus
  declared_total : ℚ
  replaced : Bool
  entries : List PayrollEntry
  recon : Option ReconciliationResult
  distribution : Option DistributionResult
  deriving DecidableEq, Repr

/-- Error taxonomy of the spec §7 (the variants the claims mention). -/
inductive ApiError where
  | ValidationError
  | ConflictError
  | StateError
  deriving DecidableEq, Repr

/-- Reconciliation tolerance: ε = 0.01 currency units (spec §3, §4.3). -/
def eps : ℚ := 1 / 100

/-- Per-row arithmetic invariant: `net == gross − deductions` within ε
(spec §3). -/
def entryArithOk (e : PayrollEntry) : Bool :=
  decide (|e.net_salary - (e.gross_salary - e.deductions)| ≤ eps)

/-- Modelled from the spec: the Reconciliation Calculator
(`reconcile(entries, declaredTotal)`, spec §4.3); the backend implementation
is not among the checked sources.  Sums cover all entries (unmatched rows
included), and `reconciled` is true iff every row's arithmetic invariant
holds and the computed net total is within ε of the declared total. -/
def reconcile (entries : List PayrollEntry) (declaredTotal : ℚ) :
    ReconciliationResult :=
  { employee_count := entries.length
    matched_count := (entries.filter (fun e => e.matched_user_id.isSome)).length
    total_gross := (entries.map (fun e => e.gross_salary)).sum
    total_deductions := (entries.map (fun e => e.deductions)).sum
    total_net := (entries.map (fun e => e.net_salary)).sum
    unmatched_names :=
      (entries.filter (fun e => e.matched_user_id.isNone)).map
        (fun e => e.employee_name)
    reconciled :=
      entries.all entryArithOk &&
        decide (|(entries.map (fun e => e.net_salary)).sum - declaredTotal| ≤ eps) }

/-- A batch is "active" for a period when it belongs to that (organization,
period) and has not been replaced (spec §3 uniqueness invariant). -/
def isActive (b : PayrollBatch) (orgId year month : Nat) : Bool :=
  b.org_id = orgId && b.period_year = year && b.period_month = month &&
    b.replaced = false

/-- Store of payroll batches owned by the Batch Lifecycle Controller. -/
structure BatchStore where
  batches : List PayrollBatch
  nextId : Nat
  deriving Repr

/-- Modelled from the spec: `uploadBatch(orgId, periodYear, periodMonth, …,
force)` (spec §4.4, §6, §7); the backend upload endpoint is not among the
checked sources.  If a non-replaced batch already exists for the
(organization, period): without `force` the upload fails with
`ConflictError` and the store is returned unchanged; with `force=true`
every such prior batch gets its `replaced` flag set and a fresh batch is
created.  `needsApproval` stands for the org policy deciding whether the
new batch starts in `uploaded_needs_approval` (spec §4.4 upload row). -/
def uploadBatch (st : BatchStore) (orgId year month : Nat) (declared : ℚ)
    (needsApproval : Bool) (force : Bool) :
    Except ApiError PayrollBatch × BatchStore :=
  let fresh : PayrollBatch :=
    { batch_id := st.nextId, org_id := orgId, period_year := year,
      period_month := month,
      status := if needsApproval then .uploaded_needs_approval else .uploaded,
      declared_total := declared, replaced := false, entries := [],
      recon := none, distribution := none }
  if st.batches.any (fun b => isActive b orgId year month) then
    if force then
      (.ok fresh,
        { batches :=
            (st.batches.map (fun b =>
              if isActive b orgId year month then { b with replaced := true }
              else b)) ++ [fresh],
          nextId := st.nextId + 1 })
    else (.error .ConflictError, st)
  else
    (.ok fresh, { batches := st.batches ++ [fresh], nextId := st.nextId + 1 })

/-- Modelled from the spec: `parseBatch(batchId)` (spec §4.4 parse row, §7
StateError); the backend parse endpoint is not among the checked sources.
`rows` are the entries the Format Normalizer and Identity Resolver extract
from the stored file.  Parse is permitted only in status `uploaded`; it
stores the entry set, computes the reconciliation result, and moves the
batch to `parsed`.  In any other status it fails with `StateError` and
leaves the batch unchanged. -/
def parseBatch (b : PayrollBatch) (rows : List PayrollEntry) :
    Except ApiError ReconciliationResult × PayrollBatch :=
  if b.status = .uploaded then
    let r := reconcile rows b.declared_total
    (.ok r, { b with status := .parsed, entries := rows, recon := some r })
  else (.error .StateError, b)

/-- Embedding of UploadTab canParse (AdminPayroll.jsx:
`batch && batch.status === "uploaded"`); `batch` is `null` before an
upload succeeds. -/
def canParse (batch : Option PayrollBatch) : Bool :=
  match batch with
  | some b => b.status = .uploaded
  | none => false

/-- Embedding of UploadTab canDistribute (AdminPayroll.jsx:
`batch && batch.status === "parsed" && parseResult && parseResult.reconciled`).
Note the client checks `reconciled` but not `matched_count`. -/
def canDistribute (batch : Option PayrollBatch)
    (parseResult : Option ReconciliationResult) : Bool :=
  match batch, parseResult with
  | some b, some pr => b.status = .parsed && pr.reconciled
  | _, _ => false

/-- A payslip record, one per (batch, employee) (spec §4.6; amount fields
follow `MyDocumentsPage.jsx`'s payslip cards). -/
structure Payslip where
  batch_id : Nat
  user_id : Nat
  gross_pay : ℚ
  total_deductions : ℚ
  net_pay : ℚ
  deriving DecidableEq, Repr

/-- Whether a payslip record already exists for (batch, employee). -/
def hasPayslip (slips : List Payslip) (batchId userId : Nat) : Bool :=
  slips.any (fun p => p.batch_id = batchId && p.user_id = userId)

/-- Payslip records a distribution run creates for a batch: one per matched
entry that does not already have a payslip for (batch, employee)
(spec §4.6 algorithm — crash-safe resume skips entries already served). -/
def newPayslips (b : PayrollBatch) (slips : List Payslip) : List Payslip :=
  (b.entries.filterMap (fun e =>
    match e.matched_user_id with
    | some uid =>
        if hasPayslip slips b.batch_id uid then none
        else some { batch_id := b.batch_id, user_id := uid,
                    gross_pay := e.gross_salary,
                    total_deductions := e.deductions, net_pay := e.net_salary }
    | none => none))

/-- Modelled from the spec: `distributeBatch(batchId)` (spec §4.6, §4.4
distribute row, §7 StateError); the backend distribute endpoint is not
among the checked sources.  Preconditions: status `parsed`, `reconciled`,
`matched_count > 0` — otherwise `StateError` with no state change.  On an
already-`distributed` batch it is a no-op returning the stored original
result.  On success it creates the missing payslips, stores the result and
moves the batch to `distributed`. -/
def distribute (b : PayrollBatch) (slips : List Payslip) :
    Except ApiError DistributionResult × (PayrollBatch × List Payslip) :=
  match b.status with
  | .distributed =>
      (.ok (b.distribution.getD { payslip_count := 0, message := "" }),
        (b, slips))
  | .parsed =>
      match b.recon with
      | some r =>
          if r.reconciled && decide (0 < r.matched_count) then
            let result : DistributionResult :=
              { payslip_count := r.matched_count,
                message := "Payslips distributed" }
            (.ok result,
              ({ b with status := .distributed, distribution := some result },
                slips ++ newPayslips b slips))
          else (.error .StateError, (b, slips))
      | none => (.error .StateError, (b, slips))
  | _ => (.error .StateError, (b, slips))

/-- Decision recorded on an approval request (spec §3 `ApprovalRequest`). -/
inductive Decision where
  | pending
  | approved
  | rejected
  deriving DecidableEq, Repr

/-- An approval request (spec §3 `ApprovalRequest`). -/
structure ApprovalRequest where
  request_id : Nat
  batch_id : Nat
  approver_id : Nat
  decision : Decision
  reason : Option String
  deriving DecidableEq, Repr

/-- Store of approval requests owned by the Approval Gate. -/
structure ApprovalStore where
  requests : List ApprovalRequest
  nextId : Nat
  deriving Repr

/-- The open (pending) request for a batch, if any. -/
def openRequestFor (st : ApprovalStore) (batchId : Nat) :
    Option ApprovalRequest :=
  st.requests.find? (fun r => r.batch_id = batchId && r.decision = .pending)

/-- Modelled from the spec: `requestApproval(batchId, approverId)`
(spec §4.5); the backend request-approval endpoint is not among the checked
sources.  While a request is open for the batch, requesting again is a
no-op returning the existing request; otherwise a fresh pending request is
created. -/
def requestApproval (st : ApprovalStore) (batchId approverId : Nat) :
    ApprovalRequest × ApprovalStore :=
  match openRequestFor st batchId with
  | some r => (r, st)
  | none =>
      let r : ApprovalRequest :=
        { request_id := st.nextId, batch_id := batchId,
          approver_id := approverId, decision := .pending, reason := none }
      (r, { requests := st.requests ++ [r], nextId := st.nextId + 1 })

/-- Pending requests a batch currently has. -/
def pendingFor (st : ApprovalStore) (batchId : Nat) : List ApprovalRequest :=
  st.requests.filter (fun r => r.batch_id = batchId && r.decision = .pending)

/-- Modelled from the spec: `decide(requestId, outcome, reason?)`
(spec §4.5, §4.4 approve/reject rows); the backend decide endpoint is not
among the checked sources.  Only an open request against a batch in
`uploaded_needs_approval` can be decided; approval moves the batch to
`uploaded`, rejection to the terminal `rejected`. -/
def decideApproval (req : ApprovalRequest) (b : PayrollBatch)
    (approve : Bool) (reason : Option String) :
    Except ApiError (ApprovalRequest × PayrollBatch) :=
  if req.decision = .pending ∧ b.status = .uploaded_needs_approval then
    if approve then
      .ok ({ req with decision := .approved }, { b with status := .uploaded })
    else
      .ok ({ req with decision := .rejected, reason := reason },
        { b with status := .rejected })
  else .error .StateError

/-- Embedding of UploadTab needsApproval (AdminPayroll.jsx:
`batch && batch.status === "uploaded_needs_approval"`). -/
def uploadTabNeedsApproval (batch : Option PayrollBatch) : Bool :=
  match batch with
  | some b => b.status = .uploaded_needs_approval
  | none => false

/-- Whether `UploadTab` renders the "Step 1 — Request Approval" block with
its "Send Approval Request" button (AdminPayroll.jsx:
`needsApproval && !approvalSent`); after `handleRequestApproval` succeeds
it sets `approvalSent` to `true`, so the block disappears. -/
def requestStepVisible (batch : Option PayrollBatch) (approvalSent : Bool) :
    Bool :=
  uploadTabNeedsApproval batch && !approvalSent

/-- Embedding of PayrollApprovalBlock isActionable (MessagesPage.jsx:
`status === "uploaded_needs_approval"`, where `status` is the live batch
status when fetched, else the payload's `batch_status`). -/
def isActionable (status : String) : Bool :=
  status = "uploaded_needs_approval"

/-- Embedding of PayrollApprovalBlock statusLabel (MessagesPage.jsx): a
specific "already …" message for the terminal-ish statuses, `none` for
`uploaded_needs_approval` and for unknown statuses. -/
def statusLabel (status : String) : Option String :=
  if status = "distributed" then some "Already distributed — no action needed"
  else if status = "uploaded" then some "Already approved — HR admin can now parse"
  else if status = "rejected" then some "Already rejected"
  else none

/-- The mutually-exclusive bodies `PayrollApprovalBlock` can render below
the request metadata (MessagesPage.jsx conditional JSX blocks). -/
inductive ApprovalBlockUI where
  | doneMark (d : String)
  | muted (label : String)
  | actions
  | rejectForm
  deriving DecidableEq, Repr

/-- Which body `PayrollApprovalBlock` renders, as a function of its `done`
state, the effective batch status and the `showReject` toggle
(MessagesPage.jsx: the `done`, `!done && !isActionable`,
`!done && isActionable && !showReject` and `!done && isActionable &&
showReject` branches). -/
def approvalBlockUI (done : Option String) (status : String)
    (showReject : Bool) : ApprovalBlockUI :=
  match done with
  | some d => .doneMark d
  | none =>
      if isActionable status then
        if showReject then .rejectForm else .actions
      else .muted ((statusLabel status).getD "This request is no longer actionable")

/-- Whether a rendered block body offers the approve/reject actions
(the `actions` buttons or the confirm-reject form). -/
def offersActions : ApprovalBlockUI → Bool
  | .actions => true
  | .rejectForm => true
  | _ => false

end Rafiki

namespace Rafiki

/-- Claim C4: reconciled is true iff every entry satisfies
`net == gross − deductions` within ε = 0.01 and the computed net total is
within ε of the declared total (spec §4.3 rule, §3 invariant). -/
theorem reconciled_iff (entries : List PayrollEntry) (declaredTotal : ℚ) :
    (reconcile entries declaredTotal).reconciled = true ↔
      ((∀ e ∈ entries, |e.net_salary - (e.gross_salary - e.deductions)| ≤ eps) ∧
        |(entries.map (fun e => e.net_salary)).sum - declaredTotal| ≤ eps) := by
  simp [reconcile, entryArithOk, List.all_eq_true]

/-- Concrete instantiation of `reconciled_iff`: the spec §8 example scenario
(two rows, declared total 1350) reconciles. -/
theorem reconciled_iff_witness :
    (reconcile
      [{ employee_name := "Jane Doe", matched_user_id := some 1,
         gross_salary := 1000, deductions := 100, net_salary := 900 },
       { employee_name := "Unknown Person", matched_user_id := none,
         gross_salary := 500, deductions := 50, net_salary := 450 }]
      1350).reconciled = true :=
  (reconciled_iff _ 1350).mpr (by norm_num [eps])

/-- Replacing a batch makes it inactive for every period. -/
theorem isActive_set_replaced (b : PayrollBatch) (o y m : Nat) :
    isActive { b with replaced := true } o y m = false := by
  simp [isActive]

/-- Claim C2: when a non-replaced batch already exists for the (organization,
period): an upload with `force=false` fails with `ConflictError` and leaves
the store (hence the existing batch) unchanged, while the same upload with
`force=true` flips the prior batch's `replaced` flag and creates a fresh
batch — afterwards the fresh batch is the only active one for the period. -/
theorem upload_conflict_without_force (st : BatchStore) (o y m : Nat)
    (declared : ℚ) (na : Bool) (b : PayrollBatch) (hb : b ∈ st.batches)
    (hact : isActive b o y m = true) :
    (uploadBatch st o y m declared na false).1 = .error .ConflictError ∧
    (uploadBatch st o y m declared na false).2 = st ∧
    ∃ fresh : PayrollBatch,
      (uploadBatch st o y m declared na true).1 = .ok fresh ∧
      fresh.batch_id = st.nextId ∧ fresh.replaced = false ∧
      fresh.entries = [] ∧ fresh.recon = none ∧ fresh.distribution = none ∧
      { b with replaced := true } ∈
        (uploadBatch st o y m declared na true).2.batches ∧
      fresh ∈ (uploadBatch st o y m declared na true).2.batches ∧
      ∀ b' ∈ (uploadBatch st o y m declared na true).2.batches,
        isActive b' o y m = true → b' = fresh := by
  have hany : st.batches.any (fun b => isActive b o y m) = true :=
    List.any_eq_true.mpr ⟨b, hb, hact⟩
  refine ⟨by simp [uploadBatch, hany], by simp [uploadBatch, hany], ?_⟩
  refine ⟨{ batch_id := st.nextId, org_id := o, period_year := y,
            period_month := m,
            status := if na then .uploaded_needs_approval else .uploaded,
            declared_total := declared, replaced := false, entries := [],
            recon := none, distribution := none },
          by simp [uploadBatch, hany], rfl, rfl, rfl, rfl, rfl, ?_, ?_, ?_⟩
  · simp only [uploadBatch, hany, if_true]
    exact List.mem_append_left _ (by
      have := List.mem_map_of_mem
        (fun b => if isActive b o y m then { b with replaced := true } else b) hb
      simpa [hact] using this)
  · simp [uploadBatch, hany]
  · intro b' hb' hact'
    simp only [uploadBatch, hany, if_true, List.mem_append, List.mem_map] at hb'
    rcases hb' with ⟨a, _, rfl⟩ | h
    · by_cases ha : isActive a o y m = true
      · rw [if_pos ha] at hact' ⊢
        rw [isActive_set_replaced] at hact'
        exact absurd hact' (by simp)
      · rw [if_neg ha] at hact' ⊢
        exact absurd hact' ha
    · simpa using h

/-- Concrete instantiation of `upload_conflict_without_force`: one active
batch for 2025-09 blocks a non-forced re-upload. -/
theorem upload_conflict_without_force_witness :
    (uploadBatch
      { batches :=
          [{ batch_id := 0, org_id := 1, period_year := 2025, period_month := 9,
             status := .uploaded, declared_total := 1350, replaced := false,
             entries := [], recon := none, distribution := none }],
        nextId := 1 } 1 2025 9 1350 false false).1 = .error .ConflictError :=
  (upload_conflict_without_force _ 1 2025 9 1350 false _
    (List.mem_singleton.mpr rfl) (by decide)).1

/-- Claim C5: UploadTab offers the parse step exactly when the batch status
is `uploaded`; a parse in status `uploaded` succeeds, stores the entries
and the reconciliation result and moves the batch to `parsed`, and a parse
requested in any other status is rejected with `StateError` and leaves the
batch unchanged. -/
theorem parse_only_from_uploaded (b : PayrollBatch) (rows : List PayrollEntry) :
    (canParse (some b) = true ↔ b.status = .uploaded) ∧
    (b.status = .uploaded →
      (parseBatch b rows).1 = .ok (reconcile rows b.declared_total) ∧
      (parseBatch b rows).2.status = .parsed ∧
      (parseBatch b rows).2.entries = rows ∧
      (parseBatch b rows).2.recon = some (reconcile rows b.declared_total)) ∧
    (b.status ≠ .uploaded →
      (parseBatch b rows).1 = .error .StateError ∧ (parseBatch b rows).2 = b) := by
  refine ⟨by simp [canParse], fun h => ?_, fun h => ?_⟩
  · simp [parseBatch, h]
  · simp [parseBatch, h]

/-- Concrete instantiation of `parse_only_from_uploaded`: parsing an
`uploaded` batch moves it to `parsed`; parsing a `distributed` batch is a
`StateError`. -/
theorem parse_only_from_uploaded_witness :
    (parseBatch
      { batch_id := 0, org_id := 1, period_year := 2025, period_month := 9,
        status := .uploaded, declared_total := 900, replaced := false,
        entries := [], recon := none, distribution := none } []).2.status
        = .parsed ∧
    (parseBatch
      { batch_id := 1, org_id := 1, period_year := 2025, period_month := 8,
        status := .distributed, declared_total := 900, replaced := false,
        entries := [], recon := none, distribution := none } []).1
        = .error .StateError :=
  ⟨((parse_only_from_uploaded _ []).2.1 rfl).2.1,
    ((parse_only_from_uploaded _ []).2.2 (by simp)).1⟩

/-- Fixture: a payroll row whose name matched no employee but whose
arithmetic is consistent (spec §8 example's second row). -/
def exRowUnmatched : PayrollEntry :=
  { employee_name := "Unknown Person", matched_user_id := none,
    gross_salary := 500, deductions := 50, net_salary := 450 }

/-- Fixture: reconciling only the unmatched row against its own net total —
arithmetically reconciled, yet `matched_count = 0`. -/
def exReconNoMatch : ReconciliationResult := reconcile [exRowUnmatched] 450

/-- Fixture: a parsed batch holding only the unmatched row. -/
def exBatchNoMatch : PayrollBatch :=
  { batch_id := 3, org_id := 1, period_year := 2025, period_month := 9,
    status := .parsed, declared_total := 450, replaced := false,
    entries := [exRowUnmatched], recon := some exReconNoMatch,
    distribution := none }

/-- Claim C1, counterexample: a parsed, arithmetically reconciled batch with
`matched_count = 0` still enables the distribute button: `UploadTab`'s
`canDistribute` checks `parseResult.reconciled` but never `matched_count`,
so the distribute request can be triggered from the UI in this state. -/
theorem canDistribute_allows_zero_matches :
    canDistribute (some exBatchNoMatch) (some exReconNoMatch) = true ∧
    exReconNoMatch.matched_count = 0 := by
  constructor
  · norm_num [canDistribute, exBatchNoMatch, exReconNoMatch, reconcile,
      exRowUnmatched, entryArithOk, eps]
  · simp [exReconNoMatch, reconcile, exRowUnmatched]

/-- Claim C1, amended: the distribute button is enabled exactly when the
batch status is `parsed` and the parse result's `reconciled` flag is true
(the client does not check `matched_count`); a distribute attempt on any
non-`distributed` batch whose reconciliation has `reconciled = false` or
`matched_count = 0` always fails with `StateError` and changes nothing. -/
theorem distribute_guard (b : PayrollBatch) (pr r : ReconciliationResult)
    (slips : List Payslip) :
    (canDistribute (some b) (some pr) = true ↔
      b.status = .parsed ∧ pr.reconciled = true) ∧
    (b.status ≠ .distributed → b.recon = some r →
      r.reconciled = false ∨ r.matched_count = 0 →
      (distribute b slips).1 = .error .StateError ∧
        (distribute b slips).2 = (b, slips)) := by
  constructor
  · simp [canDistribute]
  · intro hnd hr hbad
    rcases b with ⟨bid, org, py, pm, status, dt, rep, ent, rec, dist⟩
    simp only at hr
    subst hr
    cases status
    case uploaded => simp [distribute]
    case uploaded_needs_approval => simp [distribute]
    case rejected => simp [distribute]
    case distributed => exact absurd rfl hnd
    case parsed =>
      rcases hbad with h | h
      · simp [distribute, h]
      · simp [distribute, h]

/-- Concrete instantiation of `distribute_guard`: distributing the parsed
zero-match batch fails with `StateError`. -/
theorem distribute_guard_witness :
    (distribute exBatchNoMatch []).1 = .error .StateError :=
  ((distribute_guard exBatchNoMatch exReconNoMatch exReconNoMatch []).2
    (by simp [exBatchNoMatch]) rfl (Or.inr rfl)).1

/-- Claim C3: distribute is idempotent: once a call returns a
`DistributionResult`, re-invoking `distribute` on the resulting batch is a
no-op that returns the identical result and leaves the payslip store
untouched — payslips are never created twice and the repeat never errors. -/
theorem distribute_idempotent (b : PayrollBatch) (slips : List Payslip)
    (d : DistributionResult) (h : (distribute b slips).1 = .ok d) :
    distribute (distribute b slips).2.1 (distribute b slips).2.2 =
      (.ok d, (distribute b slips).2) := by
  rcases b with ⟨bid, org, py, pm, status, dt, rep, ent, rec, dist⟩
  cases status
  case uploaded => simp [distribute] at h
  case uploaded_needs_approval => simp [distribute] at h
  case rejected => simp [distribute] at h
  case distributed =>
    simp only [distribute] at h ⊢
    simp_all
  case parsed =>
    cases rec with
    | none => simp [distribute] at h
    | some r =>
      by_cases hg : (r.reconciled && decide (0 < r.matched_count)) = true
      · have hd : d =
            { payslip_count := r.matched_count,
              message := "Payslips distributed" } := by
          simpa [distribute, hg] using h.symm
        subst hd
        simp [distribute, hg]
      · simp [distribute, hg] at h

/-- Fixture: a payroll row matched to employee 1 (spec §8 example's first
row). -/
def exRowMatched : PayrollEntry :=
  { employee_name := "Jane Doe", matched_user_id := some 1,
    gross_salary := 1000, deductions := 100, net_salary := 900 }

/-- Fixture: a parsed, reconciled batch with one matched row, ready to
distribute. -/
def exBatchReady : PayrollBatch :=
  { batch_id := 4, org_id := 1, period_year := 2025, period_month := 10,
    status := .parsed, declared_total := 900, replaced := false,
    entries := [exRowMatched], recon := some (reconcile [exRowMatched] 900),
    distribution := none }

/-- Concrete instantiation of `distribute_idempotent`: distributing
`exBatchReady` succeeds, and doing it again returns the same result and
the same single payslip. -/
theorem distribute_idempotent_witness :
    distribute (distribute exBatchReady []).2.1 (distribute exBatchReady []).2.2 =
      (.ok { payslip_count := 1, message := "Payslips distributed" },
        (distribute exBatchReady []).2) :=
  distribute_idempotent exBatchReady []
    { payslip_count := 1, message := "Payslips distributed" }
    (by norm_num [distribute, exBatchReady, reconcile, exRowMatched,
      entryArithOk, eps])

/-- Claim C6: PayrollApprovalBlock offers the approve/reject actions exactly
when no decision has been recorded locally and the effective batch status
is `uploaded_needs_approval`; for any other status (with no local decision)
it renders a muted not-actionable notice instead.  Deciding an open request
on a batch in `uploaded_needs_approval` moves the batch to `uploaded` on
approval and to the terminal `rejected` on rejection, and in any other
batch status deciding fails with `StateError`. -/
theorem approval_actionable_only_pending
    (done : Option String) (status : String) (showReject : Bool)
    (req : ApprovalRequest) (b : PayrollBatch) (reason : Option String) :
    (offersActions (approvalBlockUI done status showReject) = true ↔
      done = none ∧ status = "uploaded_needs_approval") ∧
    (done = none → status ≠ "uploaded_needs_approval" →
      ∃ label, approvalBlockUI done status showReject = .muted label) ∧
    (req.decision = .pending → b.status = .uploaded_needs_approval →
      decideApproval req b true reason =
        .ok ({ req with decision := .approved },
          { b with status := .uploaded }) ∧
      decideApproval req b false reason =
        .ok ({ req with decision := .rejected, reason := reason },
          { b with status := .rejected })) ∧
    (b.status ≠ .uploaded_needs_approval →
      decideApproval req b true reason = .error .StateError ∧
      decideApproval req b false reason = .error .StateError) := by
  refine ⟨?_, ?_, ?_, ?_⟩
  · cases done with
    | some d => simp [approvalBlockUI, offersActions]
    | none =>
      by_cases hs : status = "uploaded_needs_approval"
      · cases showReject <;>
          simp [approvalBlockUI, offersActions, isActionable, hs]
      · simp [approvalBlockUI, offersActions, isActionable, hs]
  · intro hdone hs
    subst hdone
    exact ⟨(statusLabel status).getD "This request is no longer actionable",
      by simp [approvalBlockUI, isActionable, hs]⟩
  · intro hreq hb
    constructor <;> simp [decideApproval, hreq, hb]
  · intro hb
    constructor <;> simp [decideApproval, hb]

/-- Fixture: an open approval request for batch 3. -/
def exReq : ApprovalRequest :=
  { request_id := 0, batch_id := 3, approver_id := 9, decision := .pending,
    reason := none }

/-- Fixture: a batch awaiting approval. -/
def exBatchNeeds : PayrollBatch :=
  { batch_id := 3, org_id := 1, period_year := 2025, period_month := 9,
    status := .uploaded_needs_approval, declared_total := 450,
    replaced := false, entries := [], recon := none, distribution := none }

/-- Concrete instantiation of `approval_actionable_only_pending`: with no
local decision and status `uploaded_needs_approval` the actions are
offered, and approving the open request moves the batch to `uploaded`. -/
theorem approval_actionable_only_pending_witness :
    offersActions (approvalBlockUI none "uploaded_needs_approval" false) = true ∧
    decideApproval exReq exBatchNeeds true none =
      .ok ({ exReq with decision := .approved },
        { exBatchNeeds with status := .uploaded }) :=
  ⟨(approval_actionable_only_pending none "uploaded_needs_approval" false
      exReq exBatchNeeds none).1.mpr ⟨rfl, rfl⟩,
    ((approval_actionable_only_pending none "uploaded_needs_approval" false
      exReq exBatchNeeds none).2.2.1 rfl rfl).1⟩

/-- Claim C7: at most one open approval request per batch: requesting approval
while one is open is a no-op returning the existing request (so a second
`requestApproval` right after a first returns exactly what the first did,
and keeps the batch's open-request count at most one), and `UploadTab`
stops rendering the request-approval step once `approvalSent` is set. -/
theorem requestApproval_single_open (st : ApprovalStore) (batchId a1 a2 : Nat)
    (hst : (pendingFor st batchId).length ≤ 1) :
    requestApproval (requestApproval st batchId a1).2 batchId a2 =
      ((requestApproval st batchId a1).1,
        (requestApproval st batchId a1).2) ∧
    (pendingFor (requestApproval st batchId a1).2 batchId).length ≤ 1 ∧
    ∀ b : Option PayrollBatch, requestStepVisible b true = false := by
  refine ⟨?_, ?_, fun b => by simp [requestStepVisible]⟩
  · cases hfind : openRequestFor st batchId with
    | some r => simp [requestApproval, hfind]
    | none =>
      simp only [openRequestFor] at hfind
      simp [requestApproval, openRequestFor, List.find?_append, hfind]
  · cases hfind : openRequestFor st batchId with
    | some r => simpa [requestApproval, hfind] using hst
    | none =>
      simp only [openRequestFor] at hfind
      have hall := List.find?_eq_none.mp hfind
      simp [requestApproval, openRequestFor, hfind, pendingFor,
        List.filter_append, List.filter_eq_nil_iff.mpr hall]

/-- Concrete instantiation of `requestApproval_single_open`: on an empty
store, the second request for batch 5 returns the request the first one
created, without creating another. -/
theorem requestApproval_single_open_witness :
    requestApproval (requestApproval ⟨[], 0⟩ 5 1).2 5 2 =
      ((requestApproval ⟨[], 0⟩ 5 1).1, (requestApproval ⟨[], 0⟩ 5 1).2) :=
  (requestApproval_single_open ⟨[], 0⟩ 5 1 2 (by simp [pendingFor])).1

/-- Decimal digit characters of `n`, least significant first (`[]` for 0). -/
def natDigitsRev : Nat → List Char
  | 0 => []
  | n + 1 => Nat.digitChar ((n + 1) % 10) :: natDigitsRev ((n + 1) / 10)
decreasing_by exact Nat.div_lt_self (Nat.succ_pos n) (by norm_num)

/-- Insert the "," grouping separator after every third digit; the input is
least significant first and `k` counts digits already emitted. -/
def groupRevAux : List Char → Nat → List Char
  | [], _ => []
  | c :: rest, k =>
      c :: ((if (k + 1) % 3 = 0 ∧ rest ≠ [] then [','] else []) ++
        groupRevAux rest (k + 1))

/-- Integer part of a formatted number: decimal digits with "," grouping,
as `toLocaleString` renders it. -/
def natGrouped (n : Nat) : String :=
  if n = 0 then "0" else String.mk ((groupRevAux (natDigitsRev n) 0).reverse)

/-- The two fraction digits of a cent count. -/
def twoFracDigits (n : Nat) : String :=
  String.mk [Nat.digitChar (n / 10 % 10), Nat.digitChar (n % 10)]

/-- Round to cents, halves away from zero (the default `halfExpand`
rounding of `Intl.NumberFormat`). -/
def roundCents (q : ℚ) : Int :=
  if 0 ≤ q then ⌊q * 100 + 1 / 2⌋ else -⌊-(q * 100) + 1 / 2⌋

/-- Model of the JS number rendering shared by both helpers
(`Number(n).toLocaleString("en-KE", { minimumFractionDigits: 2,
maximumFractionDigits: 2 })` in AdminPayroll.jsx and
`Intl.NumberFormat(undefined, …).format(val)` in MyDocumentsPage.jsx) for
a finite numeric input: optional sign, grouped integer part, ".", exactly
two fraction digits. -/
def toLocaleFixed2 (q : ℚ) : String :=
  (if roundCents q < 0 then "-" else "") ++
    natGrouped ((roundCents q).natAbs / 100) ++ "." ++
    twoFracDigits ((roundCents q).natAbs % 100)

/-- Embedding of fmt (AdminPayroll.jsx helpers): `n == null` renders the placeholder
"—", a number renders with two fraction digits. -/
def fmt : Option ℚ → String
  | none => "—"
  | some n => toLocaleFixed2 n

/-- Embedding of formatCurrency (MyDocumentsPage.jsx): `val == null` renders "-", a
number renders with two fraction digits. -/
def formatCurrency : Option ℚ → String
  | none => "-"
  | some val => toLocaleFixed2 val

/-- Lemma: `Nat.digitChar` sends values below ten to digit characters. -/
theorem digitChar_isDigit (k : Nat) (hk : k < 10) :
    (Nat.digitChar k).isDigit = true := by
  interval_cases k <;> rfl

/-- Every character `natDigitsRev` emits is a decimal digit. -/
theorem mem_natDigitsRev_isDigit (n : Nat) :
    ∀ c ∈ natDigitsRev n, c.isDigit = true := by
  induction n using Nat.strong_induction_on with
  | _ n ih =>
    match n with
    | 0 => simp [natDigitsRev]
    | m + 1 =>
      intro c hc
      rw [natDigitsRev] at hc
      rcases List.mem_cons.mp hc with rfl | h
      · exact digitChar_isDigit _ (Nat.mod_lt _ (by norm_num))
      · exact ih ((m + 1) / 10) (Nat.div_lt_self (Nat.succ_pos m) (by norm_num)) c h

/-- Lemma: `groupRevAux` only ever adds "," separators to its input characters. -/
theorem mem_groupRevAux (l : List Char) :
    ∀ k c, c ∈ groupRevAux l k → c ∈ l ∨ c = ',' := by
  induction l with
  | nil => simp [groupRevAux]
  | cons a t ih =>
    intro k c hc
    simp only [groupRevAux, List.mem_cons, List.mem_append] at hc
    rcases hc with rfl | hc | hc
    · exact Or.inl (List.mem_cons_self _ _)
    · by_cases hcond : (k + 1) % 3 = 0 ∧ t ≠ []
      · rw [if_pos hcond] at hc
        exact Or.inr (List.mem_singleton.mp hc)
      · rw [if_neg hcond] at hc
        exact absurd hc (List.not_mem_nil c)
    · rcases ih (k + 1) c hc with h | h
      · exact Or.inl (List.mem_cons_of_mem _ h)
      · exact Or.inr h

/-- The integer part never contains a decimal point. -/
theorem natGrouped_no_dot (n : Nat) : ∀ c ∈ (natGrouped n).data, c ≠ '.' := by
  intro c hc
  by_cases h : n = 0
  · simp only [natGrouped, h, if_pos] at hc
    have : c = '0' := by simpa using hc
    subst this
    decide
  · simp only [natGrouped, h, if_neg, ite_false] at hc
    have hc' : c ∈ groupRevAux (natDigitsRev n) 0 :=
      List.mem_reverse.mp hc
    rcases mem_groupRevAux _ 0 c hc' with hd | hd
    · have hdig := mem_natDigitsRev_isDigit n c hd
      intro hdot
      rw [hdot] at hdig
      exact absurd hdig (by decide)
    · subst hd
      decide

/-- Claim C8: the currency helpers are total and never render `NaN` for
missing data: `fmt` maps null/undefined to "—" and `formatCurrency` maps
it to "-", and for every (finite) numeric input both produce a string
whose fraction part is exactly two decimal digits after the only ".". -/
theorem fmt_never_nan :
    fmt none = "—" ∧ formatCurrency none = "-" ∧
    ∀ q : ℚ, ∃ (pre : String) (d₁ d₂ : Char),
      fmt (some q) = pre ++ "." ++ String.mk [d₁, d₂] ∧
      formatCurrency (some q) = pre ++ "." ++ String.mk [d₁, d₂] ∧
      d₁.isDigit = true ∧ d₂.isDigit = true ∧
      ∀ c ∈ pre.data, c ≠ '.' := by
  refine ⟨rfl, rfl, fun q => ?_⟩
  refine ⟨(if roundCents q < 0 then "-" else "") ++
      natGrouped ((roundCents q).natAbs / 100),
    Nat.digitChar ((roundCents q).natAbs % 100 / 10 % 10),
    Nat.digitChar ((roundCents q).natAbs % 100 % 10), rfl, rfl,
    digitChar_isDigit _ (Nat.mod_lt _ (by norm_num)),
    digitChar_isDigit _ (Nat.mod_lt _ (by norm_num)), ?_⟩
  intro c hc
  rw [String.data_append] at hc
  rcases List.mem_append.mp hc with h | h
  · by_cases hneg : roundCents q < 0
    · rw [if_pos hneg] at h
      have : c = '-' := by simpa using h
      subst this
      decide
    · rw [if_neg hneg] at h
      simp only [show ("" : String).data = [] from rfl] at h
      exact absurd h (List.not_mem_nil c)
  · exact natGrouped_no_dot _ c h

end Rafiki

namespace Rafiki

/-- An employee document as `MyDocumentsPage.jsx` consumes it
(`/api/v1/employee-docs/me`). -/
structure EmployeeDoc where
  id : Nat
  title : String
  doc_type : String
  deriving DecidableEq, Repr

/-- A payslip record as `MyDocumentsPage.jsx` consumes it
(`/api/v1/payroll/my-payslips`); `document_id` links the record to the
generated document, when one exists. -/
structure PayslipRecord where
  payslip_id : Nat
  document_id : Option Nat
  gross_pay : Option ℚ
  total_deductions : Option ℚ
  net_pay : Option ℚ
  deriving DecidableEq, Repr

/-- Embedding of payslipDocs (MyDocumentsPage.jsx):
`documents.filter((d) => d.doc_type === "payslip")`. -/
def payslipDocs (documents : List EmployeeDoc) : List EmployeeDoc :=
  documents.filter (fun d => d.doc_type = "payslip")

/-- Embedding of allDocs (MyDocumentsPage.jsx):
`documents.filter((d) => d.doc_type !== "payslip")`. -/
def allDocs (documents : List EmployeeDoc) : List EmployeeDoc :=
  documents.filter (fun d => d.doc_type ≠ "payslip")

/-- A card of the Payslips tab: either a fetched payslip record or a
standalone payslip-typed document. -/
inductive PayslipCard where
  | record (ps : PayslipRecord)
  | doc (d : EmployeeDoc)
  deriving DecidableEq, Repr

/-- The card list the Payslips tab renders (MyDocumentsPage.jsx): all
fetched payslip records, then the payslip-typed documents not linked to
any fetched record
(`payslipDocs.filter((d) => !payslips.some((ps) => ps.document_id === d.id))`). -/
def renderedPayslipCards (payslips : List PayslipRecord)
    (documents : List EmployeeDoc) : List PayslipCard :=
  payslips.map .record ++
    ((payslipDocs documents).filter (fun d =>
      !payslips.any (fun ps => ps.document_id = some d.id))).map .doc

end Rafiki

namespace Rafiki

/-- Claim C9: the Payslips tab renders exactly the fetched payslip records
plus those documents of `doc_type` "payslip" whose id is not the
`document_id` of any fetched record — so a document linked to a payslip
record never appears as its own card. -/
theorem payslips_rendered_once (payslips : List PayslipRecord)
    (documents : List EmployeeDoc) :
    (∀ ps : PayslipRecord,
      PayslipCard.record ps ∈ renderedPayslipCards payslips documents ↔
        ps ∈ payslips) ∧
    (∀ d : EmployeeDoc,
      PayslipCard.doc d ∈ renderedPayslipCards payslips documents ↔
        (d ∈ documents ∧ d.doc_type = "payslip" ∧
          ∀ ps ∈ payslips, ps.document_id ≠ some d.id)) := by
  constructor
  · intro ps
    simp [renderedPayslipCards]
  · intro d
    constructor
    · intro h
      rcases List.mem_append.mp h with h | h
      · rcases List.mem_map.mp h with ⟨ps, _, hps⟩
        exact PayslipCard.noConfusion hps
      · rcases List.mem_map.mp h with ⟨d', hd', hinj⟩
        injection hinj with hdd
        subst hdd
        rcases List.mem_filter.mp hd' with ⟨hdp, hany⟩
        rcases List.mem_filter.mp hdp with ⟨hmem, htype⟩
        refine ⟨hmem, by simpa using htype, ?_⟩
        intro ps hps hlink
        have hx : payslips.any (fun ps => ps.document_id = some d'.id) = true :=
          List.any_eq_true.mpr ⟨ps, hps, by simp [hlink]⟩
        rw [hx] at hany
        exact absurd hany (by decide)
    · rintro ⟨hmem, htype, hnolink⟩
      refine List.mem_append.mpr (Or.inr (List.mem_map.mpr ⟨d, ?_, rfl⟩))
      refine List.mem_filter.mpr
        ⟨List.mem_filter.mpr ⟨hmem, by simpa using htype⟩, ?_⟩
      simp only [Bool.not_eq_true']
      rw [List.any_eq_false]
      intro ps hps
      simpa using hnolink ps hps

/-- Fixture: a generated payslip document. -/
def exPayslipDoc : EmployeeDoc :=
  { id := 11, title := "Payslip 2025-09", doc_type := "payslip" }

/-- Fixture: the payslip record linked to `exPayslipDoc`. -/
def exPayslipRec : PayslipRecord :=
  { payslip_id := 1, document_id := some 11, gross_pay := some 1000,
    total_deductions := some 100, net_pay := some 900 }

/-- Concrete instantiation of `payslips_rendered_once`: a document linked
to the fetched payslip record is not rendered as a standalone card. -/
theorem payslips_rendered_once_witness :
    PayslipCard.doc exPayslipDoc ∉
      renderedPayslipCards [exPayslipRec] [exPayslipDoc] :=
  fun h =>
    (((payslips_rendered_once _ _).2 _).mp h).2.2 exPayslipRec (by simp) rfl

end Rafiki

namespace Rafiki

/-- The marker `MessageContent` searches for (MessagesPage.jsx). -/
def payrollMarker : String := "[[PAYROLL_APPROVAL]]"

/-- The end marker of a payroll approval block (MessagesPage.jsx). -/
def payrollEndMarker : String := "[[/PAYROLL_APPROVAL]]"

/-- Model of `String.prototype.indexOf` on character lists: the first position at or
after `i` (in the remaining list `s`) where `pat` starts, else `none`. -/
def indexOfAux (pat : List Char) : List Char → Nat → Option Nat
  | [], i => if pat.isPrefixOf ([] : List Char) then some i else none
  | c :: t, i =>
      if pat.isPrefixOf (c :: t) then some i else indexOfAux pat t (i + 1)

/-- Model of `content.indexOf(pat)` (JS), as an `Option` instead of `-1`. -/
def strIndexOf (s pat : String) : Option Nat :=
  indexOfAux pat.data s.data 0

/-- Model of `content.indexOf(pat, start)` (JS), as an `Option` instead of `-1`. -/
def strIndexOfFrom (s pat : String) (start : Nat) : Option Nat :=
  (indexOfAux pat.data (s.data.drop start) 0).map (· + start)

/-- What `MessageContent` renders: the raw content, or the text before the
marker above a `PayrollApprovalBlock` with a payload. -/
inductive MessageRender (J : Type) where
  | plain (content : String)
  | block (before : String) (payload : Option J)

/-- Embedding of MessageContent (MessagesPage.jsx).  Without the marker the content is
rendered unchanged.  With it, the text before the marker (trimmed) is
rendered above the approval block, whose payload is `JSON.parse` of the
slice between the markers — to the end of the string when the end marker
is missing.  `parseJson` abstracts `JSON.parse`, returning `none` where
the JS would throw, which the `catch` turns into the empty-object
fallback (`none` here). -/
def messageContent {J : Type} (parseJson : String → Option J)
    (content : String) : MessageRender J :=
  match strIndexOf content payrollMarker with
  | none => .plain content
  | some start =>
      let stop := strIndexOfFrom content payrollEndMarker start
      let before := (String.mk (content.data.take start)).trim
      let jsonStr :=
        match stop with
        | none => String.mk (content.data.drop (start + payrollMarker.length))
        | some e =>
            String.mk ((content.data.take e).drop (start + payrollMarker.length))
      .block before (parseJson jsonStr)

/-- Occurrence of `pat` inside `c :: t` is an occurrence at the head or an
occurrence inside `t`. -/
theorem occurs_cons_iff (pat t : List Char) (c : Char) :
    (∃ a b, c :: t = a ++ pat ++ b) ↔
      pat <+: (c :: t) ∨ ∃ a b, t = a ++ pat ++ b := by
  constructor
  · rintro ⟨a, b, heq⟩
    cases a with
    | nil =>
      exact Or.inl ⟨b, by simpa using heq.symm⟩
    | cons a0 a' =>
      right
      rcases List.cons_eq_cons.mp (by simpa [List.append_assoc] using heq)
        with ⟨rfl, ht⟩
      exact ⟨a', b, by simpa [List.append_assoc] using ht⟩
  · rintro (⟨u, hu⟩ | ⟨a, b, heq⟩)
    · exact ⟨[], u, by simpa using hu.symm⟩
    · exact ⟨c :: a, b, by simp [heq]⟩

/-- Lemma: `indexOfAux` returns `none` exactly when `pat` occurs nowhere in `s`. -/
theorem indexOfAux_eq_none_iff (pat : List Char) :
    ∀ (s : List Char) (i : Nat),
      indexOfAux pat s i = none ↔ ∀ a b : List Char, s ≠ a ++ pat ++ b := by
  intro s
  induction s with
  | nil =>
    intro i
    by_cases hp : pat.isPrefixOf ([] : List Char) = true
    · have hnil : pat = [] := by simpa using hp
      subst hnil
      simp [indexOfAux]
    · have hne : pat ≠ [] := by simpa using hp
      simp only [indexOfAux, hp, if_false, Bool.false_eq_true, ite_false]
      constructor
      · intro _ a b heq
        rcases List.append_eq_nil.mp heq.symm with ⟨h1, -⟩
        rcases List.append_eq_nil.mp h1 with ⟨-, h2⟩
        exact hne h2
      · intro _
        trivial
  | cons c t ih =>
    intro i
    by_cases hp : pat.isPrefixOf (c :: t) = true
    · have hocc : ∃ a b, c :: t = a ++ pat ++ b :=
        (occurs_cons_iff pat t c).mpr (Or.inl ( List.isPrefixOf_iff_prefix.mp hp))
      simp only [indexOfAux, hp, if_true]
      constructor
      · intro h
        exact absurd h (by simp)
      · intro h
        rcases hocc with ⟨a, b, heq⟩
        exact absurd heq (h a b)
    · simp only [indexOfAux, hp, Bool.false_eq_true, ite_false]
      rw [ih (i + 1)]
      constructor
      · intro h a b heq
        rcases (occurs_cons_iff pat t c).mp ⟨a, b, heq⟩ with hpre | ⟨a', b', heq'⟩
        · exact hp ( List.isPrefixOf_iff_prefix.mpr hpre)
        · exact h a' b' heq'
      · intro h a b heq
        exact h (c :: a) b (by simp [heq])

/-- When `indexOfAux` returns an index, the pattern starts there and at no
earlier position. -/
theorem indexOfAux_eq_some (pat : List Char) :
    ∀ (s : List Char) (i j : Nat), indexOfAux pat s i = some j →
      i ≤ j ∧ pat.isPrefixOf (s.drop (j - i)) = true ∧
        ∀ m, m < j - i → pat.isPrefixOf (s.drop m) = false := by
  intro s
  induction s with
  | nil =>
    intro i j h
    by_cases hp : pat.isPrefixOf ([] : List Char) = true
    · simp only [indexOfAux, hp, if_true, Option.some.injEq] at h
      subst h
      refine ⟨le_refl i, by simpa using hp, ?_⟩
      intro m hm
      omega
    · simp [indexOfAux, hp] at h
  | cons c t ih =>
    intro i j h
    by_cases hp : pat.isPrefixOf (c :: t) = true
    · simp only [indexOfAux, hp, if_true, Option.some.injEq] at h
      subst h
      refine ⟨le_refl i, by simpa using hp, ?_⟩
      intro m hm
      omega
    · simp only [indexOfAux, hp, Bool.false_eq_true, ite_false] at h
      rcases ih (i + 1) j h with ⟨hij, hpre, hmin⟩
      have hij' : i ≤ j := by omega
      have hsub : j - i = (j - (i + 1)) + 1 := by omega
      refine ⟨hij', ?_, ?_⟩
      · rw [hsub]
        simpa using hpre
      · intro m hm
        cases m with
        | zero =>
          simpa using (Bool.not_eq_true _).mp hp
        | succ m' =>
          have : m' < j - (i + 1) := by omega
          simpa using hmin m' this

end Rafiki

namespace Rafiki

/-- Claim C10: MessageContent is total on every content string: it renders
the content unchanged exactly when the marker does not occur in it; when
the marker occurs, it renders the (trimmed) text before the first marker
occurrence above an approval block whose payload is the abstracted
`JSON.parse` of the extracted slice — a failing parse (`none`) being the
empty-object fallback, never an exception. -/
theorem messageContent_total {J : Type} (parseJson : String → Option J)
    (content : String) :
    (messageContent parseJson content = .plain content ↔
      ∀ a b : List Char, content.data ≠ a ++ payrollMarker.data ++ b) ∧
    ((∃ a b : List Char, content.data = a ++ payrollMarker.data ++ b) →
      ∃ (i : Nat) (js : String),
        payrollMarker.data.isPrefixOf (content.data.drop i) = true ∧
        (∀ m, m < i →
          payrollMarker.data.isPrefixOf (content.data.drop m) = false) ∧
        messageContent parseJson content =
          .block ((String.mk (content.data.take i)).trim) (parseJson js)) := by
  constructor
  · cases hidx : strIndexOf content payrollMarker with
    | none =>
      have hnone :=
        (indexOfAux_eq_none_iff payrollMarker.data content.data 0).mp hidx
      simp only [messageContent, hidx]
      exact ⟨fun _ => hnone, fun _ => trivial⟩
    | some k =>
      rcases indexOfAux_eq_some payrollMarker.data content.data 0 k hidx
        with ⟨-, hpre, -⟩
      rw [Nat.sub_zero] at hpre
      rcases List.isPrefixOf_iff_prefix.mp hpre with ⟨u, hu⟩
      constructor
      · intro h
        simp [messageContent, hidx] at h
      · intro h
        have hdecomp :
            content.data = content.data.take k ++ payrollMarker.data ++ u := by
          rw [List.append_assoc, hu, List.take_append_drop]
        exact absurd hdecomp (h _ u)
  · rintro ⟨a, b, heq⟩
    cases hidx : strIndexOf content payrollMarker with
    | none =>
      exact absurd heq
        ((indexOfAux_eq_none_iff payrollMarker.data content.data 0).mp hidx a b)
    | some k =>
      rcases indexOfAux_eq_some payrollMarker.data content.data 0 k hidx
        with ⟨-, hpre, hmin⟩
      cases hstop : strIndexOfFrom content payrollEndMarker k with
      | none =>
        refine ⟨k, String.mk (content.data.drop (k + payrollMarker.length)),
          by simpa using hpre, by simpa using hmin, ?_⟩
        simp [messageContent, hidx, hstop]
      | some e =>
        refine ⟨k,
          String.mk ((content.data.take e).drop (k + payrollMarker.length)),
          by simpa using hpre, by simpa using hmin, ?_⟩
        simp [messageContent, hidx, hstop]

end Rafiki

namespace Rafiki

/-- Fixture: a DM whose approval payload is not valid JSON. -/
def exContent : String := "Please approve [[PAYROLL_APPROVAL]]notjson"

/-- Fixture: abstraction of `JSON.parse` that fails on every input. -/
def exParse : String → Option Unit := fun _ => none

/-- Concrete instantiation of `messageContent_total`: the marker occurs in
`exContent`, and the unparsable payload renders as a block whose payload is
the empty-object fallback rather than an exception. -/
theorem messageContent_total_witness :
    ∃ (i : Nat) (js : String),
      payrollMarker.data.isPrefixOf (exContent.data.drop i) = true ∧
      (∀ m, m < i →
        payrollMarker.data.isPrefixOf (exContent.data.drop m) = false) ∧
      messageContent exParse exContent =
        .block ((String.mk (exContent.data.take i)).trim) (exParse js) :=
  (messageContent_total exParse exContent).2
    ⟨"Please approve ".data, "notjson".data, by decide⟩

end Rafiki
